import Mathlib

/-!
Shallow embedding of the zello mcore C interface (src/bindings/mcore.h).
Only the header (declarations) of the core is in the repository, so the
behaviour of each operation is modelled from the specification's own
description (spec.md §3, §4.1-§4.4, §7, §8); each such definition carries a
doc comment starting with "Modelled from the spec:".
-/

namespace Mcore

/-- Modelled from the spec: byte width of the UTF-8 encoding of one Unicode
scalar ("Byte offset: position within a UTF-8 buffer measured in bytes").
The implementation of the editing core is not under src/, so UTF-8 byte
arithmetic is reconstructed from the standard encoding the spec refers to. -/
def utf8Width (c : Char) : Nat :=
  if c.val < 0x80 then 1
  else if c.val < 0x800 then 2
  else if c.val < 0x10000 then 3
  else 4

/-- Total UTF-8 byte length of a buffer of Unicode scalars. -/
def utf8Len : List Char → Nat
  | [] => 0
  | c :: cs => utf8Width c + utf8Len cs

/-- The scalars of a buffer whose UTF-8 encodings end at or before
byte offset `n` (the longest prefix of byte length at most `n`). -/
def takeBytes : List Char → Nat → List Char
  | [], _ => []
  | c :: cs, n => if utf8Width c ≤ n then c :: takeBytes cs (n - utf8Width c) else []

/-- The scalars of a buffer not taken by `takeBytes` at byte offset `n`. -/
def dropBytes : List Char → Nat → List Char
  | [], _ => []
  | c :: cs, n => if utf8Width c ≤ n then dropBytes cs (n - utf8Width c) else c :: cs

/-- Byte offset `n` lies on a UTF-8 scalar boundary of buffer `l`. -/
def IsBoundary (l : List Char) (n : Nat) : Prop :=
  utf8Len (takeBytes l n) = n

instance (l : List Char) (n : Nat) : Decidable (IsBoundary l n) :=
  inferInstanceAs (Decidable (_ = _))

/-- The largest scalar boundary of `l` at or before byte offset `n`. -/
def floorBoundary (l : List Char) (n : Nat) : Nat :=
  utf8Len (takeBytes l n)

theorem one_le_utf8Width (c : Char) : 1 ≤ utf8Width c := by
  unfold utf8Width
  split
  · omega
  split
  · omega
  split
  · omega
  · omega

theorem utf8Len_append (xs ys : List Char) :
    utf8Len (xs ++ ys) = utf8Len xs + utf8Len ys := by
  induction xs with
  | nil => simp [utf8Len]
  | cons c cs ih => simp [utf8Len, ih]; omega

theorem takeBytes_zero (l : List Char) : takeBytes l 0 = [] := by
  cases l with
  | nil => rfl
  | cons c cs =>
    have h := one_le_utf8Width c
    simp only [takeBytes]
    rw [if_neg (by omega)]

theorem dropBytes_zero (l : List Char) : dropBytes l 0 = l := by
  cases l with
  | nil => rfl
  | cons c cs =>
    have h := one_le_utf8Width c
    simp only [dropBytes]
    rw [if_neg (by omega)]

theorem takeBytes_append_len (xs ys : List Char) :
    takeBytes (xs ++ ys) (utf8Len xs) = xs := by
  induction xs with
  | nil => simpa [utf8Len] using takeBytes_zero ys
  | cons c cs ih =>
    simp only [List.cons_append, takeBytes, utf8Len]
    rw [if_pos (Nat.le_add_right _ _), Nat.add_sub_cancel_left]
    show c :: takeBytes (cs ++ ys) (utf8Len cs) = c :: cs
    rw [ih]

theorem dropBytes_append_len (xs ys : List Char) :
    dropBytes (xs ++ ys) (utf8Len xs) = ys := by
  induction xs with
  | nil => simpa [utf8Len] using dropBytes_zero ys
  | cons c cs ih =>
    simp only [List.cons_append, dropBytes, utf8Len]
    rw [if_pos (Nat.le_add_right _ _), Nat.add_sub_cancel_left]
    show dropBytes (cs ++ ys) (utf8Len cs) = ys
    rw [ih]

theorem takeBytes_append_dropBytes (l : List Char) (n : Nat) :
    takeBytes l n ++ dropBytes l n = l := by
  induction l generalizing n with
  | nil => rfl
  | cons c cs ih =>
    simp only [takeBytes, dropBytes]
    by_cases h : utf8Width c ≤ n
    · rw [if_pos h, if_pos h, List.cons_append, ih]
    · rw [if_neg h, if_neg h, List.nil_append]

theorem isBoundary_append (xs ys : List Char) :
    IsBoundary (xs ++ ys) (utf8Len xs) := by
  unfold IsBoundary
  rw [takeBytes_append_len]

theorem isBoundary_zero (l : List Char) : IsBoundary l 0 := by
  unfold IsBoundary
  rw [takeBytes_zero]
  rfl

theorem isBoundary_len (l : List Char) : IsBoundary l (utf8Len l) := by
  have h := isBoundary_append l []
  simpa using h

theorem utf8Len_takeBytes_le (l : List Char) (n : Nat) :
    utf8Len (takeBytes l n) ≤ utf8Len l := by
  conv_rhs => rw [← takeBytes_append_dropBytes l n]
  rw [utf8Len_append]
  omega

theorem isBoundary_le {l : List Char} {n : Nat} (h : IsBoundary l n) :
    n ≤ utf8Len l := by
  unfold IsBoundary at h
  rw [← h]
  exact utf8Len_takeBytes_le l n

theorem isBoundary_floor (l : List Char) (n : Nat) :
    IsBoundary l (floorBoundary l n) := by
  have h := isBoundary_append (takeBytes l n) (dropBytes l n)
  rwa [takeBytes_append_dropBytes] at h

theorem isBoundary_dropLast_takeBytes (l : List Char) (n : Nat) :
    IsBoundary l (utf8Len (takeBytes l n).dropLast) := by
  rcases eq_or_ne (takeBytes l n) [] with h | h
  · rw [h]
    exact isBoundary_zero l
  · have hd : (takeBytes l n).dropLast ++
        ((takeBytes l n).getLast h :: dropBytes l n) = l := by
      have h1 : (takeBytes l n).dropLast ++ [(takeBytes l n).getLast h] =
          takeBytes l n := List.dropLast_append_getLast h
      calc (takeBytes l n).dropLast ++ ((takeBytes l n).getLast h :: dropBytes l n)
          = ((takeBytes l n).dropLast ++ [(takeBytes l n).getLast h]) ++ dropBytes l n := by
            simp
        _ = takeBytes l n ++ dropBytes l n := by rw [h1]
        _ = l := takeBytes_append_dropBytes l n
    have h2 := isBoundary_append (takeBytes l n).dropLast
        ((takeBytes l n).getLast h :: dropBytes l n)
    rwa [hd] at h2

/-! Text input state machine (spec §4.1, header lines 100-154, 160-175). -/

/-- mcore_cursor_direction_t (header lines 109-114). -/
inductive CursorDirection
  | left
  | right
  | home
  | endKey
deriving DecidableEq

/-- mcore_text_event_t (header lines 100-123): one text-editing event; the
payload fields relevant to each kind are carried by the constructor. The
InsertChar code point is modelled as a Unicode scalar, matching the spec's
assumption that hosts hand the core well-formed events. -/
inductive TextEvent
  | insertChar (c : Char)
  | backspace
  | delete
  | moveCursor (dir : CursorDirection) (extendSel : Bool)
  | setCursor (pos : Int)
  | insertText (t : List Char)
deriving DecidableEq

/-- Modelled from the spec: the IME preedit overlay ("an optional IME preedit
buffer with its own internal cursor offset", spec §3); the implementation is
not under src/. -/
structure PreeditState where
  text : List Char
  cursorOffset : Int
deriving DecidableEq

/-- Modelled from the spec: TextInputState (spec §3) — "holds the full UTF-8
buffer, a byte-offset cursor, an optional selection anchor
(selection = [min(anchor,cursor), max(anchor,cursor))), and an optional IME
preedit buffer". The implementation is not under src/. -/
structure TextInputState where
  buf : List Char
  cursor : Nat
  anchor : Option Nat
  preedit : Option PreeditState
deriving DecidableEq

/-- Modelled from the spec: lazily created default state for an id not yet
seen ("operations on an unknown id create the state lazily", spec §4.1). -/
def defaultState : TextInputState :=
  { buf := [], cursor := 0, anchor := none, preedit := none }

/-- Modelled from the spec: the active selection of a state, `[min, max)` over
anchor and cursor, none when no anchor is set or the range is empty. -/
def selectionOf (s : TextInputState) : Option (Nat × Nat) :=
  match s.anchor with
  | none => none
  | some a =>
    if a = s.cursor then none
    else some (min a s.cursor, max a s.cursor)

/-- Modelled from the spec: InsertChar/InsertText — "replace the active
selection (if any) or insert at cursor; cursor advances to end of inserted
text; insert always clears selection" (spec §4.1). -/
def insertAtCursor (s : TextInputState) (t : List Char) : TextInputState :=
  match selectionOf s with
  | some (lo, hi) =>
    { s with buf := takeBytes s.buf lo ++ t ++ dropBytes s.buf hi
           , cursor := lo + utf8Len t
           , anchor := none }
  | none =>
    { s with buf := takeBytes s.buf s.cursor ++ t ++ dropBytes s.buf s.cursor
           , cursor := s.cursor + utf8Len t
           , anchor := none }

/-- Modelled from the spec: Backspace — "if a selection is active, delete it
and place cursor at its start; otherwise delete the UTF-8 scalar ending at
cursor (byte-boundary aware, not naive single-byte deletion) and move cursor
back by that scalar's width" (spec §4.1). -/
def applyBackspace (s : TextInputState) : TextInputState :=
  match selectionOf s with
  | some (lo, hi) =>
    { s with buf := takeBytes s.buf lo ++ dropBytes s.buf hi
           , cursor := lo
           , anchor := none }
  | none =>
    if s.cursor = 0 then s
    else
      { s with buf := (takeBytes s.buf s.cursor).dropLast ++ dropBytes s.buf s.cursor
             , cursor := utf8Len (takeBytes s.buf s.cursor).dropLast
             , anchor := none }

/-- Modelled from the spec: Delete — "symmetric, deletes the selection or the
scalar starting at cursor; cursor does not move" (spec §4.1). -/
def applyDelete (s : TextInputState) : TextInputState :=
  match selectionOf s with
  | some (lo, hi) =>
    { s with buf := takeBytes s.buf lo ++ dropBytes s.buf hi
           , cursor := lo
           , anchor := none }
  | none =>
    match dropBytes s.buf s.cursor with
    | [] => s
    | _ :: rest =>
      { s with buf := takeBytes s.buf s.cursor ++ rest
             , anchor := none }

/-- Modelled from the spec: target byte offset of MoveCursor — "Left/Right
move by one UTF-8 scalar (not byte), clamped to buffer bounds; Home/End jump
to ... buffer bounds" (spec §4.1). -/
def moveTarget (s : TextInputState) (dir : CursorDirection) : Nat :=
  match dir with
  | .left => utf8Len (takeBytes s.buf s.cursor).dropLast
  | .right =>
    match dropBytes s.buf s.cursor with
    | [] => s.cursor
    | d :: _ => s.cursor + utf8Width d
  | .home => 0
  | .endKey => utf8Len s.buf

/-- Modelled from the spec: MoveCursor — "if extend is false, selection is
cleared and anchor reset to new cursor; if true, the anchor is fixed at the
pre-move cursor position (established on first extend)" (spec §4.1). -/
def applyMoveCursor (s : TextInputState) (dir : CursorDirection)
    (extendSel : Bool) : TextInputState :=
  { s with cursor := moveTarget s dir
         , anchor := if extendSel then some (s.anchor.getD s.cursor) else none }

/-- Modelled from the spec: SetCursor — "clamps to the nearest valid UTF-8
boundary at or before position; clears selection" (spec §4.1); a negative C
int position clamps to 0. -/
def applySetCursor (s : TextInputState) (pos : Int) : TextInputState :=
  { s with cursor := floorBoundary s.buf pos.toNat
         , anchor := none }

/-- Modelled from the spec: the state transition of apply_event (spec §4.1). -/
def applyEventState (s : TextInputState) : TextEvent → TextInputState
  | .insertChar c => insertAtCursor s [c]
  | .backspace => applyBackspace s
  | .delete => applyDelete s
  | .moveCursor dir ext => applyMoveCursor s dir ext
  | .setCursor pos => applySetCursor s pos
  | .insertText t => insertAtCursor s t

/-- Modelled from the spec: apply_event(id, event) -> bool — "Returns whether
the buffer changed" (spec §4.1); this is the per-state core of
mcore_text_input_event (header line 145). -/
def applyEvent (s : TextInputState) (e : TextEvent) : TextInputState × Bool :=
  (applyEventState s e, decide ((applyEventState s e).buf ≠ s.buf))

/-- Fold of apply_event over a finite sequence of events on one state. -/
def applyEvents (s : TextInputState) (es : List TextEvent) : TextInputState :=
  es.foldl (fun t e => (applyEvent t e).1) s

/-! Context: clip stack, font registry, frame clock, per-widget text states
(spec §3 RenderContext, header lines 126-179). -/

/-- mcore_rect_t / clip rectangle geometry (header lines 188-193), with exact
rational coordinates standing for the C floats. -/
structure MRect where
  x : ℚ
  y : ℚ
  w : ℚ
  h : ℚ
deriving DecidableEq

/-- Modelled from the spec: rectangle intersection used by the clip stack
("push intersects with the current top", spec §3); empty overlaps clamp to
zero extent. -/
def rectIntersect (a b : MRect) : MRect :=
  let x1 := max a.x b.x
  let y1 := max a.y b.y
  let x2 := min (a.x + a.w) (b.x + b.w)
  let y2 := min (a.y + a.h) (b.y + b.h)
  { x := x1, y := y1, w := max 0 (x2 - x1), h := max 0 (y2 - y1) }

/-- mcore_color_t (header lines 231-236), with exact rational components
standing for the C floats. -/
structure MColor where
  r : ℚ
  g : ℚ
  b : ℚ
  a : ℚ
deriving DecidableEq

/-- mcore_text_metrics_t (header lines 54-58). -/
structure TextMetrics where
  advanceW : ℚ
  advanceH : ℚ
  lineCount : Int
deriving DecidableEq

/-- mcore_text_size_t (header lines 60-63). -/
structure TextSize where
  width : ℚ
  height : ℚ
deriving DecidableEq

/-- mcore_text_req_t (header lines 47-52). -/
structure TextReq where
  utf8 : List Char
  wrapWidth : ℚ
  fontSizePx : ℚ
  fontId : Int
deriving DecidableEq

/-- mcore_font_blob_t (header lines 41-45): raw font bytes and a name; the
decoding of the blob is an external capability (spec §6). -/
structure FontBlob where
  data : List Nat
  name : List Char
deriving DecidableEq

/-- Modelled from the spec: RenderContext (spec §3) — owner of "registered
fonts, active clip stack, and the live set of Text Input States", plus the
frame clock set by begin_frame; the implementation is not under src/.
Text-input states are a total map from 64-bit widget id, default-constructed
lazily (spec §4.1 failure policy). -/
structure MCoreContext where
  states : Nat → TextInputState
  clip : List MRect
  fonts : List Int
  nextFontId : Int
  time : ℚ

/-- A context as freshly created by mcore_create: no fonts, empty clip stack,
every widget state default. -/
def emptyCtx : MCoreContext :=
  { states := fun _ => defaultState
  , clip := []
  , fonts := []
  , nextFontId := 0
  , time := 0 }

/-- mcore_begin_frame (header line 136): records the frame clock. -/
def mcore_begin_frame (ctx : MCoreContext) (timeSeconds : ℚ) : MCoreContext :=
  { ctx with time := timeSeconds }

/-- mcore_text_input_event (header line 145). Modelled from the spec:
dispatches the event to the state of the given widget id (spec §4.1). -/
def mcore_text_input_event (ctx : MCoreContext) (id : Nat) (e : TextEvent) :
    MCoreContext × Bool :=
  let r := applyEvent (ctx.states id) e
  ({ ctx with states := Function.update ctx.states id r.1 }, r.2)

/-- Fold of mcore_text_input_event over a sequence of (widget id, event)
pairs. -/
def applyCtxEvents (ctx : MCoreContext) (es : List (Nat × TextEvent)) :
    MCoreContext :=
  es.foldl (fun c ie => (mcore_text_input_event c ie.1 ie.2).1) ctx

/-- mcore_text_input_get (header line 146): the committed buffer of a widget
(the preedit overlay is never part of it, spec §3 invariants). -/
def mcore_text_input_get (ctx : MCoreContext) (id : Nat) : List Char :=
  (ctx.states id).buf

/-- mcore_text_input_cursor (header line 147). -/
def mcore_text_input_cursor (ctx : MCoreContext) (id : Nat) : Nat :=
  (ctx.states id).cursor

/-- mcore_text_input_set (header line 148). Modelled from the spec: "replaces
entire buffer, cursor moves to end, selection cleared" (spec §4.1). -/
def mcore_text_input_set (ctx : MCoreContext) (id : Nat) (t : List Char) :
    MCoreContext :=
  let s' : TextInputState :=
    { buf := t, cursor := utf8Len t, anchor := none
    , preedit := (ctx.states id).preedit }
  { ctx with states := Function.update ctx.states id s' }

/-- mcore_text_input_get_selection (header line 151). -/
def mcore_text_input_get_selection (ctx : MCoreContext) (id : Nat) :
    Option (Nat × Nat) :=
  selectionOf (ctx.states id)

/-- mcore_text_input_set_cursor_pos (header line 152). Modelled from the
spec: set_cursor_with_extend — moves the cursor to the floored boundary,
extending or clearing the selection like MoveCursor (spec §4.1). -/
def mcore_text_input_set_cursor_pos (ctx : MCoreContext) (id : Nat)
    (byteOffset : Int) (extendSel : Bool) : MCoreContext :=
  let s := ctx.states id
  let s' : TextInputState :=
    { s with cursor := floorBoundary s.buf byteOffset.toNat
           , anchor := if extendSel then some (s.anchor.getD s.cursor) else none }
  { ctx with states := Function.update ctx.states id s' }

/-- mcore_text_input_start_selection (header line 154). Modelled from the
spec: "anchors a new selection at offset without moving the cursor"
(spec §4.1). -/
def mcore_text_input_start_selection (ctx : MCoreContext) (id : Nat)
    (byteOffset : Int) : MCoreContext :=
  let s := ctx.states id
  let s' : TextInputState :=
    { s with anchor := some (floorBoundary s.buf byteOffset.toNat) }
  { ctx with states := Function.update ctx.states id s' }

/-- mcore_text_input_get_selected_text (header line 153). Modelled from the
spec: the bytes of the active selection range. -/
def mcore_text_input_get_selected_text (ctx : MCoreContext) (id : Nat) :
    List Char :=
  match selectionOf (ctx.states id) with
  | none => []
  | some (lo, hi) => takeBytes (dropBytes (ctx.states id).buf lo) (hi - lo)

/-- mcore_ime_set_preedit (header line 166). Modelled from the spec:
"replaces the composition overlay ... without touching the committed buffer"
(spec §4.1). -/
def mcore_ime_set_preedit (ctx : MCoreContext) (id : Nat)
    (text : List Char) (cursorOffset : Int) : MCoreContext :=
  let s := ctx.states id
  let s' : TextInputState :=
    { s with preedit := some { text := text, cursorOffset := cursorOffset } }
  { ctx with states := Function.update ctx.states id s' }

/-- mcore_ime_commit (header line 169). Modelled from the spec: "replaces the
preedit with a real insertion into the committed buffer (equivalent to
InsertText) and clears preedit" (spec §4.1). -/
def mcore_ime_commit (ctx : MCoreContext) (id : Nat) (text : List Char) :
    MCoreContext :=
  let s := (applyEvent (ctx.states id) (.insertText text)).1
  let s' : TextInputState := { s with preedit := none }
  { ctx with states := Function.update ctx.states id s' }

/-- mcore_ime_clear_preedit (header line 172). Modelled from the spec:
"discards composition without committing" (spec §4.1). -/
def mcore_ime_clear_preedit (ctx : MCoreContext) (id : Nat) : MCoreContext :=
  let s := ctx.states id
  let s' : TextInputState := { s with preedit := none }
  { ctx with states := Function.update ctx.states id s' }

/-- mcore_ime_get_preedit (header line 175). -/
def mcore_ime_get_preedit (ctx : MCoreContext) (id : Nat) :
    Option PreeditState :=
  (ctx.states id).preedit

/-- mcore_push_clip_rect (header line 178). Modelled from the spec: "push
intersects with the current top (or is unconstrained if empty)" (spec §3). -/
def mcore_push_clip_rect (ctx : MCoreContext) (r : MRect) : MCoreContext :=
  { ctx with clip :=
      (match ctx.clip with
       | [] => r
       | top :: _ => rectIntersect r top) :: ctx.clip }

/-- mcore_pop_clip (header line 179). Modelled from the spec: "pop removes
the most recent entry; must never underflow" (spec §3) — popping an empty
stack is a no-op. -/
def mcore_pop_clip (ctx : MCoreContext) : MCoreContext :=
  { ctx with clip := ctx.clip.tail }

/-- mcore_font_register (header line 133). Modelled from the spec: "assigns
a stable integer id" (spec §4.3); ids are handed out in sequence and
recorded in the registry. -/
def mcore_font_register (ctx : MCoreContext) (_blob : FontBlob) :
    MCoreContext × Int :=
  ({ ctx with fonts := ctx.nextFontId :: ctx.fonts
            , nextFontId := ctx.nextFontId + 1 }, ctx.nextFontId)

/-- mcore_text_layout (header line 138). Modelled from the spec: shaping is
an external capability (`shape`); "unregistered ids fail softly
(measurement/layout returns zeroed metrics)" (spec §4.3). -/
def mcore_text_layout (shape : TextReq → TextMetrics) (ctx : MCoreContext)
    (req : TextReq) : TextMetrics :=
  if req.fontId ∈ ctx.fonts then shape req
  else { advanceW := 0, advanceH := 0, lineCount := 0 }

/-- mcore_measure_text (header line 139). Modelled from the spec: the
measurement-only variant (spec §4.3); the header passes no font id, so the
entry point resolves the context's default font id 0, and an unregistered
default font yields zeroed metrics. -/
def mcore_measure_text (measure : List Char → ℚ → ℚ → TextSize)
    (ctx : MCoreContext) (text : List Char) (fontSize maxWidth : ℚ) :
    TextSize :=
  if (0 : Int) ∈ ctx.fonts then measure text fontSize maxWidth
  else { width := 0, height := 0 }

/-- mcore_draw_command_t (header lines 65-95) as the closed tagged variant
the spec prescribes (spec §3 DrawCommand), with the payload fields the
claims need. -/
inductive DrawCmd
  | roundedRect (rect : MRect) (radius : ℚ) (fill : MColor)
  | styledRect (rect : MRect) (radius : ℚ) (fill : MColor)
      (borderWidth : ℚ) (borderColor : MColor) (hasBorder : Bool)
      (shadowOffsetX shadowOffsetY shadowBlur : ℚ) (shadowColor : MColor)
      (hasShadow : Bool)
  | text (fontId : Int) (utf8 : List Char) (pos : MRect) (fontSize : ℚ)
      (wrapWidth : ℚ) (color : MColor)
  | pushClipCmd (rect : MRect)
  | popClipCmd
deriving DecidableEq

/-- Modelled from the spec: whether a command is executed against the
backend — a Text command whose font id is unregistered is "silently skipped"
(spec §4.3, §7); every other command executes. -/
def cmdExecutes (ctx : MCoreContext) : DrawCmd → Bool
  | .text fontId _ _ _ _ _ => decide (fontId ∈ ctx.fonts)
  | _ => true

/-- mcore_render_commands (header line 141). Modelled from the spec: the
frame's ordered command list is executed in submission order, skipped
commands are dropped and the rest still execute (spec §4.2, §7); the result
is the sub-list of commands actually issued to the backend. -/
def mcore_render_commands (ctx : MCoreContext) (cmds : List DrawCmd) :
    List DrawCmd :=
  cmds.filter (cmdExecutes ctx)

/-- mcore_measure_text_to_byte_offset (header line 157). Modelled from the
spec: "geometric x-position of a byte offset under a given font size"
(spec §4.1) — the sum of the shaping capability's per-scalar advances
(`adv fontSize c`) over the scalars wholly before the offset. -/
def mcore_measure_text_to_byte_offset (adv : ℚ → Char → ℚ)
    (text : List Char) (fontSize : ℚ) (byteOffset : Nat) : ℚ :=
  ((takeBytes text byteOffset).map (adv fontSize)).sum

/-! Color engine (spec §4.4, header lines 229-256). -/

/-- A point of the Oklab perceptual space (spec glossary: "Perceptual color
space ... e.g. Oklab/Oklch"). -/
structure Oklab where
  okL : ℚ
  okA : ℚ
  okB : ℚ
deriving DecidableEq

/-- Modelled from the spec: the forward Oklab transform of a color with
linear components (spec §3: "Color: 4 linear components (r,g,b,a) in
[0,1]"); the implementation is not under src/. The cube-root nonlinearity
`cbrt` is passed as a parameter because the exact real cube root is not a
computable rational function; theorems assume only its defining values at
the points where it is applied. The LMS matrix rows are the standard Oklab
coefficients with the middle row normalized so that white maps exactly to
LMS (1,1,1), which is the transform's defining intent. -/
def linearToOklab (cbrt : ℚ → ℚ) (c : MColor) : Oklab :=
  let l := 0.4122214708 * c.r + 0.5363325363 * c.g + 0.0514459929 * c.b
  let m := 0.2119034982 * c.r + 0.6806995451 * c.g + 0.1073969567 * c.b
  let s := 0.0883024619 * c.r + 0.2817188376 * c.g + 0.6299787005 * c.b
  let lp := cbrt l
  let mp := cbrt m
  let sp := cbrt s
  { okL := 0.2104542553 * lp + 0.7936177850 * mp - 0.0040720468 * sp
  , okA := 1.9779984951 * lp - 2.4285922050 * mp + 0.4505937099 * sp
  , okB := 0.0259040371 * lp + 0.7827717662 * mp - 0.8086757660 * sp }

/-- Modelled from the spec: the inverse Oklab transform back to linear
components (spec §4.4: "converts back"); the nonlinearity here is exact
cubing, the inverse of the cube root. -/
def oklabToLinear (o : Oklab) : ℚ × ℚ × ℚ :=
  let lp := o.okL + 0.3963377774 * o.okA + 0.2158037573 * o.okB
  let mp := o.okL - 0.1055613458 * o.okA - 0.0638541728 * o.okB
  let sp := o.okL - 0.0894841775 * o.okA - 1.2914855480 * o.okB
  let l := lp ^ 3
  let m := mp ^ 3
  let s := sp ^ 3
  ( 4.0767416621 * l - 3.3077115913 * m + 0.2309699292 * s
  , -1.2684380046 * l + 2.6097574011 * m - 0.3413193965 * s
  , -0.0041960863 * l - 0.7034186147 * m + 1.7076147010 * s )

/-- mcore_color_lerp (header line 253). Modelled from the spec: "converts
both endpoints into a perceptually uniform space, interpolates there,
converts back" (spec §4.4), using Oklab ("perceptually-correct Oklab
space", header comment restated by the spec); alpha interpolates
componentwise; `t` is not clamped. -/
def mcore_color_lerp (cbrt : ℚ → ℚ) (a b : MColor) (t : ℚ) : MColor :=
  let oa := linearToOklab cbrt a
  let ob := linearToOklab cbrt b
  let o : Oklab :=
    { okL := oa.okL + (ob.okL - oa.okL) * t
    , okA := oa.okA + (ob.okA - oa.okA) * t
    , okB := oa.okB + (ob.okB - oa.okB) * t }
  let rgb := oklabToLinear o
  { r := rgb.1, g := rgb.2.1, b := rgb.2.2
  , a := a.a + (b.a - a.a) * t }

/-- mcore_color_from_rgba8 (header line 256). Modelled from the spec:
"exact linear scaling to [0,1], no gamma correction" (spec §4.4). -/
def mcore_color_from_rgba8 (r g b a : Nat) : MColor :=
  { r := (r % 256 : ℚ) / 255, g := (g % 256 : ℚ) / 255
  , b := (b % 256 : ℚ) / 255, a := (a % 256 : ℚ) / 255 }

/-! Offset validity invariant (spec §3 invariants, §8 first property). -/

/-- Cursor and anchor of a text-input state lie on scalar boundaries of its
buffer (which also bounds them by the buffer byte length). -/
def ValidState (s : TextInputState) : Prop :=
  IsBoundary s.buf s.cursor ∧ ∀ a, s.anchor = some a → IsBoundary s.buf a

/-- Every widget state of a context satisfies the offset invariant. -/
def ValidCtx (ctx : MCoreContext) : Prop :=
  ∀ id, ValidState (ctx.states id)

theorem isBoundary_min {l : List Char} {m n : Nat}
    (hm : IsBoundary l m) (hn : IsBoundary l n) : IsBoundary l (min m n) := by
  rcases le_total m n with h | h
  · rwa [min_eq_left h]
  · rwa [min_eq_right h]

theorem isBoundary_max {l : List Char} {m n : Nat}
    (hm : IsBoundary l m) (hn : IsBoundary l n) : IsBoundary l (max m n) := by
  rcases le_total m n with h | h
  · rwa [max_eq_right h]
  · rwa [max_eq_left h]

theorem selectionOf_eq_some {s : TextInputState} {lo hi : Nat}
    (h : selectionOf s = some (lo, hi)) :
    ∃ a, s.anchor = some a ∧ a ≠ s.cursor ∧
      lo = min a s.cursor ∧ hi = max a s.cursor := by
  unfold selectionOf at h
  cases ha : s.anchor with
  | none => rw [ha] at h; cases h
  | some a =>
    rw [ha] at h
    dsimp only at h
    by_cases hac : a = s.cursor
    · rw [if_pos hac] at h; cases h
    · rw [if_neg hac] at h
      refine ⟨a, rfl, hac, ?_, ?_⟩
      · exact (Prod.mk.injEq _ _ _ _ ▸ Option.some.inj h).1.symm
      · exact (Prod.mk.injEq _ _ _ _ ▸ Option.some.inj h).2.symm

theorem selection_bounds_valid {s : TextInputState} {lo hi : Nat}
    (h : ValidState s) (hsel : selectionOf s = some (lo, hi)) :
    IsBoundary s.buf lo ∧ IsBoundary s.buf hi := by
  obtain ⟨a, ha, _, hlo, hhi⟩ := selectionOf_eq_some hsel
  have hba := h.2 a ha
  have hbc := h.1
  subst hlo hhi
  exact ⟨isBoundary_min hba hbc, isBoundary_max hba hbc⟩

theorem valid_insertAtCursor {s : TextInputState} (t : List Char)
    (h : ValidState s) : ValidState (insertAtCursor s t) := by
  unfold insertAtCursor
  cases hsel : selectionOf s with
  | none =>
    refine ⟨?_, by intro a ha; cases ha⟩
    show IsBoundary (takeBytes s.buf s.cursor ++ t ++ dropBytes s.buf s.cursor)
      (s.cursor + utf8Len t)
    have hc : utf8Len (takeBytes s.buf s.cursor) = s.cursor := h.1
    have hb := isBoundary_append (takeBytes s.buf s.cursor ++ t)
      (dropBytes s.buf s.cursor)
    rw [utf8Len_append, hc] at hb
    simpa [List.append_assoc] using hb
  | some p =>
    obtain ⟨lo, hi⟩ := p
    refine ⟨?_, by intro a ha; cases ha⟩
    show IsBoundary (takeBytes s.buf lo ++ t ++ dropBytes s.buf hi)
      (lo + utf8Len t)
    have hlo : utf8Len (takeBytes s.buf lo) = lo :=
      (selection_bounds_valid h hsel).1
    have hb := isBoundary_append (takeBytes s.buf lo ++ t) (dropBytes s.buf hi)
    rw [utf8Len_append, hlo] at hb
    simpa [List.append_assoc] using hb

theorem valid_applyBackspace {s : TextInputState}
    (h : ValidState s) : ValidState (applyBackspace s) := by
  unfold applyBackspace
  cases hsel : selectionOf s with
  | none =>
    by_cases hz : s.cursor = 0
    · rw [if_pos hz]; exact h
    · rw [if_neg hz]
      exact ⟨isBoundary_append _ _, by intro a ha; cases ha⟩
  | some p =>
    obtain ⟨lo, hi⟩ := p
    refine ⟨?_, by intro a ha; cases ha⟩
    show IsBoundary (takeBytes s.buf lo ++ dropBytes s.buf hi) lo
    have hlo : utf8Len (takeBytes s.buf lo) = lo :=
      (selection_bounds_valid h hsel).1
    have hb := isBoundary_append (takeBytes s.buf lo) (dropBytes s.buf hi)
    rwa [hlo] at hb

theorem valid_applyDelete {s : TextInputState}
    (h : ValidState s) : ValidState (applyDelete s) := by
  unfold applyDelete
  cases hsel : selectionOf s with
  | none =>
    cases hdrop : dropBytes s.buf s.cursor with
    | nil => exact h
    | cons d rest =>
      refine ⟨?_, by intro a ha; cases ha⟩
      show IsBoundary (takeBytes s.buf s.cursor ++ rest) s.cursor
      have hc : utf8Len (takeBytes s.buf s.cursor) = s.cursor := h.1
      have hb := isBoundary_append (takeBytes s.buf s.cursor) rest
      rwa [hc] at hb
  | some p =>
    obtain ⟨lo, hi⟩ := p
    refine ⟨?_, by intro a ha; cases ha⟩
    show IsBoundary (takeBytes s.buf lo ++ dropBytes s.buf hi) lo
    have hlo : utf8Len (takeBytes s.buf lo) = lo :=
      (selection_bounds_valid h hsel).1
    have hb := isBoundary_append (takeBytes s.buf lo) (dropBytes s.buf hi)
    rwa [hlo] at hb

theorem isBoundary_moveTarget {s : TextInputState} (dir : CursorDirection)
    (h : ValidState s) : IsBoundary s.buf (moveTarget s dir) := by
  unfold moveTarget
  cases dir with
  | left => exact isBoundary_dropLast_takeBytes s.buf s.cursor
  | right =>
    cases hdrop : dropBytes s.buf s.cursor with
    | nil => exact h.1
    | cons d rest =>
      have hc : utf8Len (takeBytes s.buf s.cursor) = s.cursor := h.1
      have hsplit : (takeBytes s.buf s.cursor ++ [d]) ++ rest = s.buf := by
        have := takeBytes_append_dropBytes s.buf s.cursor
        rw [hdrop] at this
        simpa [List.append_assoc] using this
      have hb := isBoundary_append (takeBytes s.buf s.cursor ++ [d]) rest
      rw [hsplit, utf8Len_append, hc] at hb
      simpa [utf8Len] using hb
  | home => exact isBoundary_zero s.buf
  | endKey => exact isBoundary_len s.buf

theorem valid_applyMoveCursor {s : TextInputState} (dir : CursorDirection)
    (ext : Bool) (h : ValidState s) : ValidState (applyMoveCursor s dir ext) := by
  unfold applyMoveCursor
  refine ⟨isBoundary_moveTarget dir h, ?_⟩
  intro a ha
  cases ext with
  | false => simp at ha
  | true =>
    rw [if_pos rfl] at ha
    obtain rfl := Option.some.inj ha
    cases hanc : s.anchor with
    | none => simpa using h.1
    | some b => simpa using h.2 b hanc

theorem valid_applySetCursor {s : TextInputState} (pos : Int)
    (_h : ValidState s) : ValidState (applySetCursor s pos) := by
  unfold applySetCursor
  exact ⟨isBoundary_floor s.buf pos.toNat, by intro a ha; cases ha⟩

theorem valid_applyEventState {s : TextInputState} (e : TextEvent)
    (h : ValidState s) : ValidState (applyEventState s e) := by
  cases e with
  | insertChar c => exact valid_insertAtCursor [c] h
  | backspace => exact valid_applyBackspace h
  | delete => exact valid_applyDelete h
  | moveCursor dir ext => exact valid_applyMoveCursor dir ext h
  | setCursor pos => exact valid_applySetCursor pos h
  | insertText t => exact valid_insertAtCursor t h

theorem valid_ctxEvent {ctx : MCoreContext} (id : Nat) (e : TextEvent)
    (h : ValidCtx ctx) : ValidCtx (mcore_text_input_event ctx id e).1 := by
  intro id'
  unfold mcore_text_input_event
  simp only [Function.update_apply]
  by_cases hid : id' = id
  · rw [if_pos hid]
    exact valid_applyEventState e (h id)
  · rw [if_neg hid]
    exact h id'

theorem valid_ctxEvents {ctx : MCoreContext} (es : List (Nat × TextEvent))
    (h : ValidCtx ctx) : ValidCtx (applyCtxEvents ctx es) := by
  induction es generalizing ctx with
  | nil => exact h
  | cons ie rest ih =>
    exact ih (valid_ctxEvent ie.1 ie.2 h)

theorem validCtx_empty : ValidCtx emptyCtx := by
  intro id
  refine ⟨?_, ?_⟩
  · show IsBoundary ([] : List Char) 0
    exact isBoundary_zero []
  · intro a ha
    cases ha

/-- One Backspace with no anchor removes the last scalar before the cursor. -/
theorem applyBackspace_last (xs post : List Char) (pd : Option PreeditState)
    (a : Char) :
    applyBackspace ⟨(xs ++ [a]) ++ post, utf8Len (xs ++ [a]), none, pd⟩ =
      ⟨xs ++ post, utf8Len xs, none, pd⟩ := by
  unfold applyBackspace
  have hsel : selectionOf ⟨(xs ++ [a]) ++ post, utf8Len (xs ++ [a]), none, pd⟩ =
      none := rfl
  rw [hsel]
  dsimp only
  have hw := one_le_utf8Width a
  have hz : utf8Len (xs ++ [a]) ≠ 0 := by
    rw [utf8Len_append]
    simp only [utf8Len]
    omega
  rw [if_neg hz, takeBytes_append_len, dropBytes_append_len,
    List.dropLast_concat]

/-- Iterating Backspace once per inserted scalar peels the inserted span off
the buffer again. -/
theorem backspace_iter (T pre post : List Char) (pd : Option PreeditState) :
    applyEvents ⟨pre ++ T ++ post, utf8Len pre + utf8Len T, none, pd⟩
      (List.replicate T.length .backspace) =
    ⟨pre ++ post, utf8Len pre, none, pd⟩ := by
  induction T using List.reverseRecOn with
  | nil => simp [applyEvents, utf8Len]
  | append_singleton T' a ih =>
    have hrep : List.replicate (T' ++ [a]).length TextEvent.backspace =
        TextEvent.backspace :: List.replicate T'.length TextEvent.backspace := by
      simp [List.replicate_succ]
    rw [hrep]
    have hstep : applyEvents
        ⟨pre ++ (T' ++ [a]) ++ post, utf8Len pre + utf8Len (T' ++ [a]), none, pd⟩
        (TextEvent.backspace :: List.replicate T'.length TextEvent.backspace) =
      applyEvents
        (applyBackspace
          ⟨pre ++ (T' ++ [a]) ++ post, utf8Len pre + utf8Len (T' ++ [a]), none, pd⟩)
        (List.replicate T'.length TextEvent.backspace) := rfl
    rw [hstep]
    have hback : applyBackspace
        ⟨pre ++ (T' ++ [a]) ++ post, utf8Len pre + utf8Len (T' ++ [a]), none, pd⟩ =
        ⟨(pre ++ T') ++ post, utf8Len (pre ++ T'), none, pd⟩ := by
      rw [show pre ++ (T' ++ [a]) ++ post = ((pre ++ T') ++ [a]) ++ post from by
            simp,
          show utf8Len pre + utf8Len (T' ++ [a]) = utf8Len ((pre ++ T') ++ [a])
            from by simp only [utf8Len_append]; omega]
      exact applyBackspace_last (pre ++ T') post pd a
    rw [hback]
    have hgoal : utf8Len (pre ++ T') = utf8Len pre + utf8Len T' :=
      utf8Len_append pre T'
    rw [hgoal]
    exact ih

/-! The claims. -/

/-- C1: for every widget id and every finite sequence of text-input events
applied via mcore_text_input_event starting from any state whose offsets are
valid, the resulting cursor offset and both selection bounds satisfy
0 ≤ x ≤ buffer byte length and lie on UTF-8 scalar boundaries. -/
theorem text_input_offsets_valid (ctx : MCoreContext)
    (es : List (Nat × TextEvent)) (id : Nat) (h : ValidCtx ctx) :
    (((applyCtxEvents ctx es).states id).cursor ≤
        utf8Len ((applyCtxEvents ctx es).states id).buf ∧
      IsBoundary ((applyCtxEvents ctx es).states id).buf
        ((applyCtxEvents ctx es).states id).cursor) ∧
    ∀ lo hi,
      mcore_text_input_get_selection (applyCtxEvents ctx es) id = some (lo, hi) →
      (lo ≤ utf8Len ((applyCtxEvents ctx es).states id).buf ∧
        IsBoundary ((applyCtxEvents ctx es).states id).buf lo) ∧
      (hi ≤ utf8Len ((applyCtxEvents ctx es).states id).buf ∧
        IsBoundary ((applyCtxEvents ctx es).states id).buf hi) := by
  have hv := valid_ctxEvents es h id
  refine ⟨⟨isBoundary_le hv.1, hv.1⟩, ?_⟩
  intro lo hi hsel
  have hb := selection_bounds_valid hv hsel
  exact ⟨⟨isBoundary_le hb.1, hb.1⟩, ⟨isBoundary_le hb.2, hb.2⟩⟩

theorem text_input_offsets_valid_witness :
    ValidCtx emptyCtx ∧
    ((((applyCtxEvents emptyCtx
          [(0, .insertText ['h', 'é']), (0, .backspace)]).states 0).cursor ≤
        utf8Len ((applyCtxEvents emptyCtx
          [(0, .insertText ['h', 'é']), (0, .backspace)]).states 0).buf ∧
      IsBoundary ((applyCtxEvents emptyCtx
          [(0, .insertText ['h', 'é']), (0, .backspace)]).states 0).buf
        ((applyCtxEvents emptyCtx
          [(0, .insertText ['h', 'é']), (0, .backspace)]).states 0).cursor) ∧
    ∀ lo hi,
      mcore_text_input_get_selection (applyCtxEvents emptyCtx
          [(0, .insertText ['h', 'é']), (0, .backspace)]) 0 = some (lo, hi) →
      (lo ≤ utf8Len ((applyCtxEvents emptyCtx
          [(0, .insertText ['h', 'é']), (0, .backspace)]).states 0).buf ∧
        IsBoundary ((applyCtxEvents emptyCtx
          [(0, .insertText ['h', 'é']), (0, .backspace)]).states 0).buf lo) ∧
      (hi ≤ utf8Len ((applyCtxEvents emptyCtx
          [(0, .insertText ['h', 'é']), (0, .backspace)]).states 0).buf ∧
        IsBoundary ((applyCtxEvents emptyCtx
          [(0, .insertText ['h', 'é']), (0, .backspace)]).states 0).buf hi)) :=
  ⟨validCtx_empty,
    text_input_offsets_valid emptyCtx
      [(0, .insertText ['h', 'é']), (0, .backspace)] 0 validCtx_empty⟩

/-- C5: on ASCII text with the cursor at byte offset 5, start_selection at 5
followed by three MoveCursor(Right, extend = true) events yields selection
(5, 8) and cursor 8. -/
theorem selection_extend_three_right :
    mcore_text_input_get_selection
      (applyCtxEvents
        (mcore_text_input_start_selection
          (mcore_text_input_set_cursor_pos
            (mcore_text_input_set emptyCtx 1 "hello world".data) 1 5 false) 1 5)
        [(1, .moveCursor .right true), (1, .moveCursor .right true),
         (1, .moveCursor .right true)]) 1 = some (5, 8) ∧
    mcore_text_input_cursor
      (applyCtxEvents
        (mcore_text_input_start_selection
          (mcore_text_input_set_cursor_pos
            (mcore_text_input_set emptyCtx 1 "hello world".data) 1 5 false) 1 5)
        [(1, .moveCursor .right true), (1, .moveCursor .right true),
         (1, .moveCursor .right true)]) 1 = 8 := by
  constructor <;> decide

/-- C7: the clip stack never underflows — push stores the intersection of
the rect with the current top (or the rect itself on an empty stack), pop
removes the top, PushClip(A); PushClip(B); PopClip(); PopClip() leaves the
stack empty, and one further pop on the empty stack is a no-op. -/
theorem clip_stack_never_underflows (ctx : MCoreContext) (a b : MRect)
    (h : ctx.clip = []) :
    (mcore_push_clip_rect ctx a).clip = [a] ∧
    (mcore_push_clip_rect (mcore_push_clip_rect ctx a) b).clip =
      [rectIntersect b a, a] ∧
    (mcore_pop_clip (mcore_pop_clip
      (mcore_push_clip_rect (mcore_push_clip_rect ctx a) b))).clip = [] ∧
    mcore_pop_clip (mcore_pop_clip (mcore_pop_clip
      (mcore_push_clip_rect (mcore_push_clip_rect ctx a) b))) =
      mcore_pop_clip (mcore_pop_clip
        (mcore_push_clip_rect (mcore_push_clip_rect ctx a) b)) := by
  refine ⟨?_, ?_, ?_, ?_⟩ <;>
    simp [mcore_push_clip_rect, mcore_pop_clip, h]

theorem clip_stack_never_underflows_witness :
    emptyCtx.clip = [] ∧
    ((mcore_push_clip_rect emptyCtx ⟨0, 0, 10, 10⟩).clip = [⟨0, 0, 10, 10⟩] ∧
    (mcore_push_clip_rect (mcore_push_clip_rect emptyCtx ⟨0, 0, 10, 10⟩)
        ⟨2, 2, 4, 4⟩).clip =
      [rectIntersect ⟨2, 2, 4, 4⟩ ⟨0, 0, 10, 10⟩, ⟨0, 0, 10, 10⟩] ∧
    (mcore_pop_clip (mcore_pop_clip
      (mcore_push_clip_rect (mcore_push_clip_rect emptyCtx ⟨0, 0, 10, 10⟩)
        ⟨2, 2, 4, 4⟩))).clip = [] ∧
    mcore_pop_clip (mcore_pop_clip (mcore_pop_clip
      (mcore_push_clip_rect (mcore_push_clip_rect emptyCtx ⟨0, 0, 10, 10⟩)
        ⟨2, 2, 4, 4⟩))) =
      mcore_pop_clip (mcore_pop_clip
        (mcore_push_clip_rect (mcore_push_clip_rect emptyCtx ⟨0, 0, 10, 10⟩)
          ⟨2, 2, 4, 4⟩))) :=
  ⟨rfl, clip_stack_never_underflows emptyCtx ⟨0, 0, 10, 10⟩ ⟨2, 2, 4, 4⟩ rfl⟩

/-- C2: from a state with buffer B and cursor c on a scalar boundary and no
active selection, applying InsertText with text T and then deleting the
inserted byte span by one Backspace per inserted scalar restores the buffer
to B and the cursor to c. -/
theorem insert_then_delete_roundtrip (s : TextInputState) (T : List Char)
    (hb : IsBoundary s.buf s.cursor) (hsel : selectionOf s = none) :
    (applyEvents s
      (.insertText T :: List.replicate T.length .backspace)).buf = s.buf ∧
    (applyEvents s
      (.insertText T :: List.replicate T.length .backspace)).cursor =
      s.cursor := by
  have hb' : utf8Len (takeBytes s.buf s.cursor) = s.cursor := hb
  have hstep : applyEvents s
      (.insertText T :: List.replicate T.length .backspace) =
      applyEvents (insertAtCursor s T)
        (List.replicate T.length .backspace) := rfl
  have hins : insertAtCursor s T =
      ⟨takeBytes s.buf s.cursor ++ T ++ dropBytes s.buf s.cursor,
        utf8Len (takeBytes s.buf s.cursor) + utf8Len T, none, s.preedit⟩ := by
    unfold insertAtCursor
    rw [hsel]
    dsimp only
    rw [hb']
  rw [hstep, hins,
    backspace_iter T (takeBytes s.buf s.cursor) (dropBytes s.buf s.cursor)
      s.preedit]
  exact ⟨takeBytes_append_dropBytes s.buf s.cursor, hb'⟩

theorem insert_then_delete_roundtrip_witness :
    IsBoundary (⟨['a', 'é', 'b'], 3, none, none⟩ : TextInputState).buf
      (⟨['a', 'é', 'b'], 3, none, none⟩ : TextInputState).cursor ∧
    selectionOf ⟨['a', 'é', 'b'], 3, none, none⟩ = none ∧
    ((applyEvents ⟨['a', 'é', 'b'], 3, none, none⟩
        (.insertText ['x', 'ç'] ::
          List.replicate (['x', 'ç'] : List Char).length .backspace)).buf =
      (⟨['a', 'é', 'b'], 3, none, none⟩ : TextInputState).buf ∧
    (applyEvents ⟨['a', 'é', 'b'], 3, none, none⟩
        (.insertText ['x', 'ç'] ::
          List.replicate (['x', 'ç'] : List Char).length .backspace)).cursor =
      (⟨['a', 'é', 'b'], 3, none, none⟩ : TextInputState).cursor) :=
  ⟨by decide, by decide,
    insert_then_delete_roundtrip ⟨['a', 'é', 'b'], 3, none, none⟩ ['x', 'ç']
      (by decide) (by decide)⟩

/-- C3: a Backspace event with an active selection deletes exactly the
selected byte range and places the cursor at the selection start; with no
selection and cursor > 0, it removes exactly the one UTF-8 scalar whose
encoding ends at the cursor and moves the cursor back by that scalar's byte
width. -/
theorem backspace_deletes_selection_or_scalar
    (s t : TextInputState) (lo hi : Nat)
    (pre mid post pre2 post2 : List Char) (ch : Char)
    (hsel : selectionOf s = some (lo, hi))
    (hbuf : s.buf = pre ++ mid ++ post)
    (hlo : utf8Len pre = lo)
    (hhi : lo + utf8Len mid = hi)
    (hns : selectionOf t = none)
    (hbuf2 : t.buf = pre2 ++ [ch] ++ post2)
    (hcur : t.cursor = utf8Len pre2 + utf8Width ch) :
    ((applyEvent s .backspace).1.buf = pre ++ post ∧
      (applyEvent s .backspace).1.cursor = lo) ∧
    ((applyEvent t .backspace).1.buf = pre2 ++ post2 ∧
      (applyEvent t .backspace).1.cursor = t.cursor - utf8Width ch) := by
  constructor
  · show (applyBackspace s).buf = pre ++ post ∧ (applyBackspace s).cursor = lo
    unfold applyBackspace
    rw [hsel]
    dsimp only
    have h1 : takeBytes s.buf lo = pre := by
      rw [hbuf, List.append_assoc, ← hlo, takeBytes_append_len]
    have h2 : dropBytes s.buf hi = post := by
      have hlen : utf8Len (pre ++ mid) = hi := by
        rw [utf8Len_append, hlo, hhi]
      rw [hbuf, ← hlen, dropBytes_append_len]
    exact ⟨by rw [h1, h2], rfl⟩
  · show (applyBackspace t).buf = pre2 ++ post2 ∧
      (applyBackspace t).cursor = t.cursor - utf8Width ch
    unfold applyBackspace
    rw [hns]
    dsimp only
    have hw := one_le_utf8Width ch
    have hz : t.cursor ≠ 0 := by omega
    rw [if_neg hz]
    have hlen : utf8Len (pre2 ++ [ch]) = t.cursor := by
      rw [utf8Len_append, hcur]
      simp [utf8Len]
    have h1 : takeBytes t.buf t.cursor = pre2 ++ [ch] := by
      rw [hbuf2, ← hlen, takeBytes_append_len]
    have h2 : dropBytes t.buf t.cursor = post2 := by
      rw [hbuf2, ← hlen, dropBytes_append_len]
    refine ⟨by rw [h1, h2, List.dropLast_concat], ?_⟩
    show utf8Len (takeBytes t.buf t.cursor).dropLast = t.cursor - utf8Width ch
    rw [h1, List.dropLast_concat, hcur]
    omega

theorem backspace_deletes_selection_or_scalar_witness :
    selectionOf ⟨"abcdef".data, 2, some 4, none⟩ = some (2, 4) ∧
    (⟨"abcdef".data, 2, some 4, none⟩ : TextInputState).buf =
      "ab".data ++ "cd".data ++ "ef".data ∧
    utf8Len "ab".data = 2 ∧
    2 + utf8Len "cd".data = 4 ∧
    selectionOf ⟨['a', 'é', 'b'], 3, none, none⟩ = none ∧
    (⟨['a', 'é', 'b'], 3, none, none⟩ : TextInputState).buf =
      ['a'] ++ ['é'] ++ ['b'] ∧
    (⟨['a', 'é', 'b'], 3, none, none⟩ : TextInputState).cursor =
      utf8Len ['a'] + utf8Width 'é' ∧
    (((applyEvent ⟨"abcdef".data, 2, some 4, none⟩ .backspace).1.buf =
        "ab".data ++ "ef".data ∧
      (applyEvent ⟨"abcdef".data, 2, some 4, none⟩ .backspace).1.cursor = 2) ∧
    ((applyEvent ⟨['a', 'é', 'b'], 3, none, none⟩ .backspace).1.buf =
        ['a'] ++ ['b'] ∧
      (applyEvent ⟨['a', 'é', 'b'], 3, none, none⟩ .backspace).1.cursor =
        (⟨['a', 'é', 'b'], 3, none, none⟩ : TextInputState).cursor -
          utf8Width 'é')) :=
  ⟨by decide, by decide, by decide, by decide, by decide, by decide, by decide,
    backspace_deletes_selection_or_scalar
      ⟨"abcdef".data, 2, some 4, none⟩ ⟨['a', 'é', 'b'], 3, none, none⟩ 2 4
      "ab".data "cd".data "ef".data ['a'] ['b'] 'é'
      (by decide) (by decide) (by decide) (by decide) (by decide) (by decide)
      (by decide)⟩

/-- C4: mcore_ime_commit changes the committed buffer, cursor and selection
exactly as applying an InsertText event with that text would, and afterwards
mcore_ime_get_preedit reports no preedit; mcore_ime_set_preedit never
changes the committed buffer returned by mcore_text_input_get. -/
theorem ime_commit_matches_insertText (ctx : MCoreContext) (id : Nat)
    (t : List Char) :
    mcore_text_input_get (mcore_ime_commit ctx id t) id =
      mcore_text_input_get (mcore_text_input_event ctx id (.insertText t)).1 id ∧
    mcore_text_input_cursor (mcore_ime_commit ctx id t) id =
      mcore_text_input_cursor
        (mcore_text_input_event ctx id (.insertText t)).1 id ∧
    mcore_text_input_get_selection (mcore_ime_commit ctx id t) id =
      mcore_text_input_get_selection
        (mcore_text_input_event ctx id (.insertText t)).1 id ∧
    mcore_ime_get_preedit (mcore_ime_commit ctx id t) id = none ∧
    ∀ (p : List Char) (off : Int),
      mcore_text_input_get (mcore_ime_set_preedit ctx id p off) id =
        mcore_text_input_get ctx id := by
  refine ⟨?_, ?_, ?_, ?_, ?_⟩ <;>
    simp [mcore_ime_commit, mcore_text_input_event, mcore_text_input_get,
      mcore_text_input_cursor, mcore_text_input_get_selection,
      mcore_ime_get_preedit, mcore_ime_set_preedit, selectionOf]

/-- C6: the x-advance returned by mcore_measure_text_to_byte_offset is
monotonically non-decreasing in the byte offset, for any text, font size and
left-to-right (non-negative) per-scalar advances. -/
theorem measure_to_byte_offset_monotone (adv : ℚ → Char → ℚ) (size : ℚ)
    (text : List Char) (h : ∀ c, 0 ≤ adv size c) (o1 o2 : Nat)
    (hle : o1 ≤ o2) :
    mcore_measure_text_to_byte_offset adv text size o1 ≤
      mcore_measure_text_to_byte_offset adv text size o2 := by
  unfold mcore_measure_text_to_byte_offset
  induction text generalizing o1 o2 with
  | nil => simp [takeBytes]
  | cons c cs ih =>
    simp only [takeBytes]
    by_cases h1 : utf8Width c ≤ o1
    · have h2 : utf8Width c ≤ o2 := le_trans h1 hle
      rw [if_pos h1, if_pos h2]
      simp only [List.map_cons, List.sum_cons]
      exact add_le_add_left (ih (o1 - utf8Width c) (o2 - utf8Width c)
        (by omega)) _
    · rw [if_neg h1]
      simp only [List.map_nil, List.sum_nil]
      refine List.sum_nonneg ?_
      intro x hx
      obtain ⟨d, _, rfl⟩ := List.mem_map.mp hx
      exact h d

theorem measure_to_byte_offset_monotone_witness :
    (∀ c : Char, 0 ≤ (fun (_ : ℚ) (_ : Char) => (1 : ℚ)) 12 c) ∧
    (1 : Nat) ≤ 3 ∧
    mcore_measure_text_to_byte_offset (fun _ _ => (1 : ℚ))
      ['a', 'b', 'c'] 12 1 ≤
    mcore_measure_text_to_byte_offset (fun _ _ => (1 : ℚ))
      ['a', 'b', 'c'] 12 3 :=
  ⟨fun _ => by norm_num, by omega,
    measure_to_byte_offset_monotone (fun _ _ => (1 : ℚ)) 12 ['a', 'b', 'c']
      (fun _ => by norm_num) 1 3 (by omega)⟩

/-- C8: a layout request whose font id is unregistered returns zeroed
metrics, measurement with an unregistered default font returns zeroed
metrics, and a Text draw command with an unregistered id is silently skipped
at execution while the rest of the frame's commands still execute. -/
theorem unregistered_font_fails_softly (shape : TextReq → TextMetrics)
    (measure : List Char → ℚ → ℚ → TextSize) (ctx : MCoreContext)
    (req : TextReq) (text : List Char) (fontSize maxWidth : ℚ)
    (pre post : List DrawCmd) (utf8 : List Char) (pos : MRect) (fs ww : ℚ)
    (color : MColor)
    (hreq : req.fontId ∉ ctx.fonts) (hdefault : (0 : Int) ∉ ctx.fonts) :
    mcore_text_layout shape ctx req =
      ({ advanceW := 0, advanceH := 0, lineCount := 0 } : TextMetrics) ∧
    mcore_measure_text measure ctx text fontSize maxWidth =
      ({ width := 0, height := 0 } : TextSize) ∧
    mcore_render_commands ctx
        (pre ++ [.text req.fontId utf8 pos fs ww color] ++ post) =
      mcore_render_commands ctx pre ++ mcore_render_commands ctx post := by
  refine ⟨?_, ?_, ?_⟩
  · simp [mcore_text_layout, hreq]
  · simp [mcore_measure_text, hdefault]
  · simp [mcore_render_commands, cmdExecutes, hreq, List.filter_append]

theorem unregistered_font_fails_softly_witness :
    ((7 : Int) ∉ emptyCtx.fonts) ∧
    ((0 : Int) ∉ emptyCtx.fonts) ∧
    (mcore_text_layout (fun _ => ⟨1, 2, 3⟩) emptyCtx ⟨['a'], 0, 12, 7⟩ =
      ({ advanceW := 0, advanceH := 0, lineCount := 0 } : TextMetrics) ∧
    mcore_measure_text (fun _ _ _ => ⟨4, 5⟩) emptyCtx ['a'] 12 100 =
      ({ width := 0, height := 0 } : TextSize) ∧
    mcore_render_commands emptyCtx
        ([.popClipCmd] ++
          [.text (7 : Int) ['a'] ⟨0, 0, 1, 1⟩ 12 0 ⟨1, 1, 1, 1⟩] ++
          [.pushClipCmd ⟨0, 0, 2, 2⟩]) =
      mcore_render_commands emptyCtx [.popClipCmd] ++
        mcore_render_commands emptyCtx [.pushClipCmd ⟨0, 0, 2, 2⟩]) :=
  ⟨by decide, by decide,
    unregistered_font_fails_softly (fun _ => ⟨1, 2, 3⟩) (fun _ _ _ => ⟨4, 5⟩)
      emptyCtx ⟨['a'], 0, 12, 7⟩
      ['a'] 12 100 [.popClipCmd] [.pushClipCmd ⟨0, 0, 2, 2⟩] ['a']
      ⟨0, 0, 1, 1⟩ 12 0 ⟨1, 1, 1, 1⟩ (by decide) (by decide)⟩

/-- C9: mcore_color_lerp interpolates in the perceptual Oklab space, not
componentwise RGB — for black and white at t = 1/2 every color component of
the result differs from the naive RGB midpoint 1/2, for any cube-root
function with its defining values at the two points where it is applied. -/
theorem color_lerp_perceptual (cbrt : ℚ → ℚ)
    (h0 : cbrt 0 = 0) (h1 : cbrt 1 = 1) :
    (mcore_color_lerp cbrt ⟨0, 0, 0, 1⟩ ⟨1, 1, 1, 1⟩ (1 / 2)).r ≠ 1 / 2 ∧
    (mcore_color_lerp cbrt ⟨0, 0, 0, 1⟩ ⟨1, 1, 1, 1⟩ (1 / 2)).g ≠ 1 / 2 ∧
    (mcore_color_lerp cbrt ⟨0, 0, 0, 1⟩ ⟨1, 1, 1, 1⟩ (1 / 2)).b ≠ 1 / 2 := by
  norm_num [mcore_color_lerp, linearToOklab, oklabToLinear, h0, h1]

theorem color_lerp_perceptual_witness :
    ((fun x : ℚ => x) 0 = 0 ∧ (fun x : ℚ => x) 1 = 1) ∧
    ((mcore_color_lerp (fun x : ℚ => x) ⟨0, 0, 0, 1⟩ ⟨1, 1, 1, 1⟩
        (1 / 2)).r ≠ 1 / 2 ∧
      (mcore_color_lerp (fun x : ℚ => x) ⟨0, 0, 0, 1⟩ ⟨1, 1, 1, 1⟩
        (1 / 2)).g ≠ 1 / 2 ∧
      (mcore_color_lerp (fun x : ℚ => x) ⟨0, 0, 0, 1⟩ ⟨1, 1, 1, 1⟩
        (1 / 2)).b ≠ 1 / 2) :=
  ⟨⟨rfl, rfl⟩, color_lerp_perceptual (fun x : ℚ => x) rfl rfl⟩

/-- C10: mcore_text_input_event is deterministic — from two contexts whose
state for the given widget id agree (the frame clock, clip stack, fonts and
all other context state may differ arbitrarily), the same event produces the
same boolean return value and the same resulting state for that id. -/
theorem text_input_event_deterministic (ctx1 ctx2 : MCoreContext)
    (id : Nat) (e : TextEvent) (h : ctx1.states id = ctx2.states id) :
    (mcore_text_input_event ctx1 id e).2 = (mcore_text_input_event ctx2 id e).2 ∧
    ((mcore_text_input_event ctx1 id e).1).states id =
      ((mcore_text_input_event ctx2 id e).1).states id := by
  unfold mcore_text_input_event
  refine ⟨by rw [h], ?_⟩
  simp only [Function.update_same]
  rw [h]

theorem text_input_event_deterministic_witness :
    emptyCtx.states 3 = (mcore_begin_frame emptyCtx 42).states 3 ∧
    ((mcore_text_input_event emptyCtx 3 (.insertChar 'z')).2 =
      (mcore_text_input_event (mcore_begin_frame emptyCtx 42) 3
        (.insertChar 'z')).2 ∧
    ((mcore_text_input_event emptyCtx 3 (.insertChar 'z')).1).states 3 =
      ((mcore_text_input_event (mcore_begin_frame emptyCtx 42) 3
        (.insertChar 'z')).1).states 3) :=
  ⟨rfl, text_input_event_deterministic emptyCtx (mcore_begin_frame emptyCtx 42)
    3 (.insertChar 'z') rfl⟩

end Mcore
